import Mathlib

/-!
Verification of the order-date availability core of the simple-subs
application (src/constants/Colors.js third segment: `getScheduleIndex`,
`isSchoolDay`, `getDateOptions`; src/screens/main/authenticated/HomeScreen.js:
`getOrdersArr`).

Time model: a JavaScript `moment` is embedded as an integer number of minutes
since an arbitrary epoch; a calendar day spans `1440` consecutive minutes, so
day `d` is the half-open minute interval `[1440*d, 1440*(d+1))`.
`moment#diff(.., "days")` truncates toward zero, which is `Int.tdiv`;
the JavaScript `%` operator is the truncating remainder, which is `Int.tmod`;
`format(ISO_FORMAT)` / `startOf("day")` floor to the calendar day, which is
Euclidean division by 1440.  The ambient clock (`moment()`) is passed as an
explicit `now` parameter, and the module-level `Schedule` singleton as an
explicit `Schedule` value.
-/

namespace SimpleSubs

/-- Day number of a moment (minutes since epoch): the embedding of
`moment#format(ISO_FORMAT)` and `moment#startOf("day")`, i.e. flooring
division by the 1440 minutes of a day. -/
def dayOf (m : Int) : Int := m / 1440

/-- Midnight moment of a calendar day (the embedding of parsing an ISO date
string into a moment). -/
def momentOfDay (d : Int) : Int := 1440 * d

/-- Difference of two moments in whole days, truncated toward zero: the
embedding of `a.diff(b, "days")` in moment.js. -/
def diffDays (a b : Int) : Int := Int.tdiv (a - b) 1440

/-- Embedding of `getScheduleIndex` (src/constants/Colors.js line 170):
`(date, startDate, scheduleLength) => date.diff(startDate, "days") % scheduleLength`.
Both `date` and `startDate` are moments; JavaScript `%` is the truncating
remainder `Int.tmod`. -/
def getScheduleIndex (date startDate scheduleLength : Int) : Int :=
  Int.tmod (diffDays date startDate) scheduleLength

/-- Modelled from the spec: the repeating school schedule (`Schedule` module,
not under src/) — an anchor calendar day `startDate` (the source stores an ISO
date string, parsed at midnight) and a boolean sequence `values`, one entry
per day of the repeating cycle. -/
structure Schedule where
  startDate : Int
  values : List Bool
deriving Repr, DecidableEq

/-- JavaScript array subscripting `values[i]` with an integer index: a
negative or too-large index yields `undefined`, embedded as `none`. -/
def listGet (l : List Bool) (i : Int) : Option Bool :=
  if 0 ≤ i then l[i.toNat]? else none

/-- Truthiness of a JavaScript boolean-or-undefined value: `undefined` is
falsy, a boolean is itself. -/
def truthy : Option Bool → Bool
  | some b => b
  | none => false

/-- Embedding of `isSchoolDay` (src/constants/Colors.js lines 180-183):
looks up `schedule.values` at `getScheduleIndex date schedule.startDate
schedule.values.length`; the result is `none` when the subscript is out of
range (the JavaScript lookup yields `undefined`). -/
def isSchoolDay (date : Int) (schedule : Schedule) : Option Bool :=
  listGet schedule.values
    (getScheduleIndex date (momentOfDay schedule.startDate)
      (schedule.values.length : Int))

/-- Modelled from the spec: the display form of a calendar date produced by
the external formatter `toReadable` / `READABLE_FORMAT` (constants/Date.js,
not under src/).  The formatter is injective on calendar days; a
`ReadableDate` is tagged with the day it displays, so chronological order of
display values is the order of their `day` fields. -/
structure ReadableDate where
  day : Int
deriving Repr, DecidableEq

/-- Modelled from the spec: `toReadable` (constants/Date.js, not under src/),
the injective display formatter from an ISO calendar day to its display
representation. -/
def toReadable (isoDay : Int) : ReadableDate := ⟨isoDay⟩

/-- Modelled from the spec: `toISO` (constants/Date.js, not under src/),
recovering the ISO calendar day from a display-formatted date; inverse of
the display formatter. -/
def toISO (r : ReadableDate) : Int := r.day

/-- An order record as the core reads it: an identifier and a calendar date
held as a moment (order dates sit at midnight in the source). -/
structure OrderRec where
  id : Nat
  date : Int
deriving Repr, DecidableEq

/-- The currently focused (being-edited) order as `getDateOptions` reads it:
only its display-formatted date is consulted, via `toISO`. -/
structure FocusedOrder where
  date : ReadableDate
deriving Repr, DecidableEq

/-- Starting moment of the `getDateOptions` scan (src/constants/Colors.js
lines 201-204): `let date = moment(); if (date.isAfter(cutoffTime))
date.add(1, "days")` — the current moment, advanced one day when it is
strictly after the cutoff. -/
def scanStart (cutoffTime now : Int) : Int :=
  if cutoffTime < now then now + 1440 else now

/-- Truthiness of `focusedOrder && toISO(focusedOrder.date) === isoDate` in
`getDateOptions` (src/constants/Colors.js line 210): an absent focused order
is falsy, otherwise its display date is compared with the candidate day. -/
def focusMatches (focusedOrder : Option FocusedOrder) (isoDate : Int) : Bool :=
  match focusedOrder with
  | some f => decide (toISO f.date = isoDate)
  | none => false

/-- Loop body of `getDateOptions` at iteration `i` (src/constants/Colors.js
lines 205-215): the candidate moment is `scanStart + i` days; the candidate
is kept when `isSchoolDay` is truthy and either no existing order occupies
its ISO day or the focused order's own date is that day, and emitted in
display form via `toReadable`. -/
def dateCandidate (orders : List OrderRec) (focusedOrder : Option FocusedOrder)
    (cutoffTime now : Int) (schedule : Schedule) (i : Nat) : Option ReadableDate :=
  if truthy (isSchoolDay (scanStart cutoffTime now + 1440 * (i : Int)) schedule)
      && (!(decide (dayOf (scanStart cutoffTime now + 1440 * (i : Int))
              ∈ orders.map (fun o => dayOf o.date)))
          || focusMatches focusedOrder (dayOf (scanStart cutoffTime now + 1440 * (i : Int))))
  then some (toReadable (dayOf (scanStart cutoffTime now + 1440 * (i : Int))))
  else none

/-- Embedding of `getDateOptions` (src/constants/Colors.js lines 198-217).
`orders` is the value list of the orders object; the mutable day-by-day loop
is rendered as the candidate moments `scanStart + 1440*i` for `i = 0..13`. -/
def getDateOptions (orders : List OrderRec) (focusedOrder : Option FocusedOrder)
    (cutoffTime now : Int) (schedule : Schedule) : List ReadableDate :=
  (List.range 14).filterMap (dateCandidate orders focusedOrder cutoffTime now schedule)

/-- Reference moment of the `getOrdersArr` filter
(src/screens/main/authenticated/HomeScreen.js lines 183-188): the current
moment, floored to today's midnight (`now.startOf("day")`) when the current
moment is strictly before the cutoff time. -/
def refMoment (cutoffTime now : Int) : Int :=
  if now < cutoffTime then momentOfDay (dayOf now) else now

/-- Filter predicate of `getOrdersArr`: `date.isSameOrAfter(now)` against the
reference moment. -/
def keepOrder (cutoffTime now : Int) (o : OrderRec) : Bool :=
  decide (refMoment cutoffTime now ≤ o.date)

/-- Stable insertion of an order into a list sorted by ascending date: the
inserted order goes before the first element whose date is at or after its
own, matching the stable JavaScript `Array#sort` with comparator
`(a, b) => a.date.diff(b.date)`. -/
def insertOrder (o : OrderRec) : List OrderRec → List OrderRec
  | [] => [o]
  | x :: xs => if o.date ≤ x.date then o :: x :: xs else x :: insertOrder o xs

/-- Stable sort of orders by ascending date (the embedding of the JavaScript
stable `Array#sort` with comparator `(a, b) => a.date.diff(b.date)`). -/
def sortOrders : List OrderRec → List OrderRec
  | [] => []
  | o :: rest => insertOrder o (sortOrders rest)

/-- The display projection `(order) => ({ ...order, date:
order.date.format(READABLE_FORMAT) })` of `getOrdersArr`: the same record
with its date display-formatted. -/
structure ShownOrder where
  id : Nat
  date : ReadableDate
deriving Repr, DecidableEq

/-- Display-format one order record for the home screen list. -/
def showOrder (o : OrderRec) : ShownOrder := ⟨o.id, ⟨dayOf o.date⟩⟩

/-- Embedding of `getOrdersArr`
(src/screens/main/authenticated/HomeScreen.js lines 180-192): keep the orders
whose date is at or after the reference moment, sort them by ascending date
with the stable comparator sort, and display-format each date. -/
def getOrdersArr (orders : List OrderRec) (cutoffTime now : Int) : List ShownOrder :=
  (sortOrders (orders.filter (keepOrder cutoffTime now))).map showOrder

/-! Helper lemmas about the time model. -/

lemma dayOf_add_days (m k : Int) : dayOf (m + 1440 * k) = dayOf m + k := by
  unfold dayOf
  rw [mul_comm]
  exact Int.add_mul_ediv_right m k (by norm_num)

lemma dayOf_momentOfDay (d : Int) : dayOf (momentOfDay d) = d := by
  unfold dayOf momentOfDay
  rw [mul_comm]
  exact Int.mul_ediv_cancel d (by norm_num)

lemma getScheduleIndex_momentOfDay (n s L : Int) :
    getScheduleIndex (momentOfDay n) (momentOfDay s) L = Int.tmod (n - s) L := by
  unfold getScheduleIndex diffDays momentOfDay
  rw [show (1440 * n - 1440 * s : Int) = 1440 * (n - s) by ring,
    Int.mul_tdiv_cancel_left (n - s) (by norm_num)]

lemma getScheduleIndex_emod (n s L : Int) (hL : 0 < L) (hns : s ≤ n) :
    getScheduleIndex (momentOfDay n) (momentOfDay s) L = (n - s) % L := by
  rw [getScheduleIndex_momentOfDay]
  exact Int.tmod_eq_emod (by omega) (by omega)

/-- C9: applying the schedule indexer to the anchor itself yields index 0:
`getScheduleIndex(startDate, startDate, L) = 0` for any `L > 0`. -/
theorem getScheduleIndex_anchor_zero (s L : Int) (hL : 0 < L) :
    getScheduleIndex (momentOfDay s) (momentOfDay s) L = 0 := by
  rw [getScheduleIndex_momentOfDay, sub_self, Int.zero_tmod]

/-- Witness for C9 at the concrete anchor day 5 with cycle length 7. -/
theorem getScheduleIndex_anchor_zero_witness :
    getScheduleIndex (momentOfDay 5) (momentOfDay 5) 7 = 0 :=
  getScheduleIndex_anchor_zero 5 7 (by decide)

/-- C1 counterexample: one day before the anchor with cycle length 7 the
indexer returns the truncating remainder `-1`, not the mathematical modulo
`6`, and in particular a value outside `[0, 7)`. -/
theorem getScheduleIndex_negative_counterexample :
    getScheduleIndex (momentOfDay (-1)) (momentOfDay 0) 7 = -1
  ∧ ¬ (0 ≤ getScheduleIndex (momentOfDay (-1)) (momentOfDay 0) 7)
  ∧ ((-1 : Int) - 0) % 7 = 6 := by
  refine ⟨by decide, by decide, by decide⟩

/-- C1 (amended): for dates at or after the anchor, the indexer equals the
mathematical modulo `(d - startDate in days) mod L` and lies in `[0, L)`;
for dates before the anchor the source's truncating `%` can be negative. -/
theorem getScheduleIndex_emod_spec (n s L : Int) (hL : 0 < L) (hns : s ≤ n) :
    getScheduleIndex (momentOfDay n) (momentOfDay s) L = (n - s) % L
  ∧ 0 ≤ getScheduleIndex (momentOfDay n) (momentOfDay s) L
  ∧ getScheduleIndex (momentOfDay n) (momentOfDay s) L < L := by
  rw [getScheduleIndex_emod n s L hL hns]
  exact ⟨rfl, Int.emod_nonneg _ (by omega), Int.emod_lt_of_pos _ hL⟩

/-- Witness for C1 (amended) at day 9, anchor day 2, cycle length 7. -/
theorem getScheduleIndex_emod_spec_witness :
    getScheduleIndex (momentOfDay 9) (momentOfDay 2) 7 = (9 - 2) % 7
  ∧ 0 ≤ getScheduleIndex (momentOfDay 9) (momentOfDay 2) 7
  ∧ getScheduleIndex (momentOfDay 9) (momentOfDay 2) 7 < 7 :=
  getScheduleIndex_emod_spec 9 2 7 (by decide) (by decide)

/-- C7 counterexample: periodicity fails across the anchor: one day before
the anchor with cycle length 7 the index is `-1`, but six days after the
anchor (one cycle later) it is `6`. -/
theorem getScheduleIndex_periodicity_counterexample :
    getScheduleIndex (momentOfDay ((-1) + 7)) (momentOfDay 0) 7
      ≠ getScheduleIndex (momentOfDay (-1)) (momentOfDay 0) 7 := by
  decide

/-- C7 (amended): for dates at or after the anchor the indexer is periodic
with period `L`: the index of `d` equals the index of `d + L` days. -/
theorem getScheduleIndex_periodic (n s L : Int) (hL : 0 < L) (hns : s ≤ n) :
    getScheduleIndex (momentOfDay (n + L)) (momentOfDay s) L
      = getScheduleIndex (momentOfDay n) (momentOfDay s) L := by
  rw [getScheduleIndex_emod n s L hL hns, getScheduleIndex_emod (n + L) s L hL (by omega),
    show (n + L - s : Int) = (n - s) + 1 * L by ring, Int.add_mul_emod_self]

/-- Witness for C7 (amended) at day 2, anchor day 0, cycle length 7. -/
theorem getScheduleIndex_periodic_witness :
    getScheduleIndex (momentOfDay (2 + 7)) (momentOfDay 0) 7
      = getScheduleIndex (momentOfDay 2) (momentOfDay 0) 7 :=
  getScheduleIndex_periodic 2 0 7 (by decide) (by decide)

/-- C2 counterexample: on a valid 7-entry schedule, one day before the anchor
the schedule index is `-1`, the subscript is out of range, and the lookup
yields `undefined` (`none`), so `isSchoolDay` is not total over valid
schedules. -/
theorem isSchoolDay_undefined_counterexample :
    isSchoolDay (momentOfDay (-1))
      ⟨0, [true, true, true, true, true, false, false]⟩ = none := by
  decide

/-- C2 (amended): for dates at or after the anchor of a non-empty schedule,
the schedule index is in bounds and `isSchoolDay` returns the boolean stored
in the schedule's sequence at that index; for dates before the anchor the
negative subscript makes the source lookup yield `undefined`. -/
theorem isSchoolDay_in_bounds_spec (sched : Schedule) (n : Int)
    (hL : 0 < sched.values.length) (h : sched.startDate ≤ n) :
    0 ≤ getScheduleIndex (momentOfDay n) (momentOfDay sched.startDate)
          (sched.values.length : Int)
  ∧ (getScheduleIndex (momentOfDay n) (momentOfDay sched.startDate)
          (sched.values.length : Int)).toNat < sched.values.length
  ∧ isSchoolDay (momentOfDay n) sched
      = sched.values[(getScheduleIndex (momentOfDay n) (momentOfDay sched.startDate)
          (sched.values.length : Int)).toNat]?
  ∧ (isSchoolDay (momentOfDay n) sched).isSome = true := by
  have hL' : (0 : Int) < (sched.values.length : Int) := by exact_mod_cast hL
  rw [getScheduleIndex_emod n sched.startDate _ hL' h]
  have h0 : 0 ≤ (n - sched.startDate) % (sched.values.length : Int) :=
    Int.emod_nonneg _ (by omega)
  have hlt : (n - sched.startDate) % (sched.values.length : Int)
      < (sched.values.length : Int) := Int.emod_lt_of_pos _ hL'
  have htn : ((n - sched.startDate) % (sched.values.length : Int)).toNat
      < sched.values.length := by omega
  refine ⟨h0, htn, ?_, ?_⟩
  · unfold isSchoolDay listGet
    rw [getScheduleIndex_emod n sched.startDate _ hL' h, if_pos h0]
  · unfold isSchoolDay listGet
    rw [getScheduleIndex_emod n sched.startDate _ hL' h, if_pos h0,
      List.getElem?_eq_getElem htn]
    rfl

/-- Witness for C2 (amended) on a 2-entry schedule anchored at day 0,
queried at day 5. -/
theorem isSchoolDay_in_bounds_spec_witness :
    0 ≤ getScheduleIndex (momentOfDay 5) (momentOfDay (0 : Int))
          ((Schedule.mk 0 [true, false]).values.length : Int)
  ∧ (getScheduleIndex (momentOfDay 5) (momentOfDay (0 : Int))
          ((Schedule.mk 0 [true, false]).values.length : Int)).toNat
        < (Schedule.mk 0 [true, false]).values.length
  ∧ isSchoolDay (momentOfDay 5) (Schedule.mk 0 [true, false])
      = (Schedule.mk 0 [true, false]).values[(getScheduleIndex (momentOfDay 5)
          (momentOfDay (0 : Int))
          ((Schedule.mk 0 [true, false]).values.length : Int)).toNat]?
  ∧ (isSchoolDay (momentOfDay 5) (Schedule.mk 0 [true, false])).isSome = true :=
  isSchoolDay_in_bounds_spec (Schedule.mk 0 [true, false]) 5 (by decide) (by decide)

lemma isSchoolDay_offset (m k : Int) (vals : List Bool) :
    isSchoolDay (momentOfDay (m + k)) ⟨m, vals⟩
      = listGet vals (Int.tmod k (vals.length : Int)) := by
  unfold isSchoolDay
  rw [getScheduleIndex_momentOfDay]
  norm_num

/-- C8: on the Mon-Fri schedule `[true, true, true, true, true, false,
false]` anchored at a Monday (any anchor day `m`), `isSchoolDay` returns
`true` for that Monday through the following Friday (offsets 0-4) and
`false` for the following Saturday and Sunday (offsets 5 and 6). -/
theorem isSchoolDay_week_pattern (m : Int) :
    isSchoolDay (momentOfDay (m + 0))
      ⟨m, [true, true, true, true, true, false, false]⟩ = some true
  ∧ isSchoolDay (momentOfDay (m + 1))
      ⟨m, [true, true, true, true, true, false, false]⟩ = some true
  ∧ isSchoolDay (momentOfDay (m + 2))
      ⟨m, [true, true, true, true, true, false, false]⟩ = some true
  ∧ isSchoolDay (momentOfDay (m + 3))
      ⟨m, [true, true, true, true, true, false, false]⟩ = some true
  ∧ isSchoolDay (momentOfDay (m + 4))
      ⟨m, [true, true, true, true, true, false, false]⟩ = some true
  ∧ isSchoolDay (momentOfDay (m + 5))
      ⟨m, [true, true, true, true, true, false, false]⟩ = some false
  ∧ isSchoolDay (momentOfDay (m + 6))
      ⟨m, [true, true, true, true, true, false, false]⟩ = some false := by
  refine ⟨?_, ?_, ?_, ?_, ?_, ?_, ?_⟩ <;>
    rw [isSchoolDay_offset] <;> decide

/-- C4: the scan of `getDateOptions` starts at today exactly when the
current moment is at or before the cutoff (including exact equality, which
the source's strict `isAfter` treats as not-after) and at tomorrow when the
current moment is strictly after the cutoff; on a schedule that marks every
day as a school day, with no orders and no focused order, the returned list
is exactly the 14 consecutive days from that start. -/
theorem getDateOptions_scan_start (cutoffTime now : Int) :
    dayOf (scanStart cutoffTime now)
      = (if cutoffTime < now then dayOf now + 1 else dayOf now)
  ∧ getDateOptions [] none cutoffTime now ⟨0, [true]⟩
      = (List.range 14).map
          (fun i : Nat => toReadable (dayOf (scanStart cutoffTime now) + (i : Int))) := by
  constructor
  · unfold scanStart
    split
    · rw [show (now + 1440 : Int) = now + 1440 * 1 by ring, dayOf_add_days]
    · rfl
  · unfold getDateOptions
    have hf : dateCandidate [] none cutoffTime now ⟨0, [true]⟩
        = (some ∘ fun i : Nat =>
            toReadable (dayOf (scanStart cutoffTime now) + (i : Int))) := by
      funext i
      unfold dateCandidate
      have hschool : isSchoolDay (scanStart cutoffTime now + 1440 * (i : Int))
          ⟨0, [true]⟩ = some true := by
        unfold isSchoolDay
        have : getScheduleIndex (scanStart cutoffTime now + 1440 * (i : Int))
            (momentOfDay (0 : Int)) (([true] : List Bool).length : Int) = 0 := by
          unfold getScheduleIndex
          simp [Int.tmod_one]
        rw [this]
        rfl
      rw [hschool, dayOf_add_days]
      simp [truthy, focusMatches]
    rw [hf, List.filterMap_eq_map]

lemma focusMatches_eq_true (foc : Option FocusedOrder) (d : Int) :
    focusMatches foc d = true ↔ ∃ f, foc = some f ∧ toISO f.date = d := by
  cases foc <;> simp [focusMatches]

lemma dateCandidate_eq_some (orders : List OrderRec) (foc : Option FocusedOrder)
    (c n : Int) (sched : Schedule) (i : Nat) (r : ReadableDate) :
    dateCandidate orders foc c n sched i = some r ↔
      (truthy (isSchoolDay (scanStart c n + 1440 * (i : Int)) sched) = true
       ∧ (¬ (dayOf (scanStart c n) + (i : Int)) ∈ orders.map (fun o => dayOf o.date)
          ∨ ∃ f, foc = some f ∧ toISO f.date = dayOf (scanStart c n) + (i : Int))
       ∧ r = toReadable (dayOf (scanStart c n) + (i : Int))) := by
  unfold dateCandidate
  simp only [dayOf_add_days]
  split
  next hcond =>
    rw [Bool.and_eq_true, Bool.or_eq_true, Bool.not_eq_true',
      decide_eq_false_iff_not, focusMatches_eq_true] at hcond
    simp only [Option.some.injEq]
    constructor
    · intro hr
      exact ⟨hcond.1, hcond.2, hr.symm⟩
    · intro hr
      exact hr.2.2.symm
  next hcond =>
    have hcond' : ¬ ((truthy (isSchoolDay (scanStart c n + 1440 * (i : Int)) sched)
        && (!(decide ((dayOf (scanStart c n) + (i : Int))
              ∈ orders.map (fun o => dayOf o.date)))
            || focusMatches foc (dayOf (scanStart c n) + (i : Int)))) = true) := by
      simp only [hcond]
      exact Bool.false_ne_true
    constructor
    · intro h
      exact absurd h (by simp)
    · rintro ⟨h1, h2, rfl⟩
      exfalso
      apply hcond'
      rw [Bool.and_eq_true, Bool.or_eq_true, Bool.not_eq_true',
        decide_eq_false_iff_not, focusMatches_eq_true]
      exact ⟨h1, h2⟩

lemma mem_getDateOptions_iff (orders : List OrderRec) (foc : Option FocusedOrder)
    (c n : Int) (sched : Schedule) (d : Int) :
    toReadable d ∈ getDateOptions orders foc c n sched ↔
      (dayOf (scanStart c n) ≤ d ∧ d < dayOf (scanStart c n) + 14
       ∧ truthy (isSchoolDay (scanStart c n + 1440 * (d - dayOf (scanStart c n)))
           sched) = true
       ∧ (¬ d ∈ orders.map (fun o => dayOf o.date)
          ∨ ∃ f, foc = some f ∧ toISO f.date = d)) := by
  unfold getDateOptions
  rw [List.mem_filterMap]
  constructor
  · rintro ⟨i, hi, hsome⟩
    rw [List.mem_range] at hi
    rw [dateCandidate_eq_some] at hsome
    obtain ⟨hschool, hfree, hr⟩ := hsome
    have hd : d = dayOf (scanStart c n) + (i : Int) := by
      have := congrArg ReadableDate.day hr
      simpa [toReadable] using this
    subst hd
    refine ⟨by omega, by omega, ?_, hfree⟩
    rw [show (dayOf (scanStart c n) + (i : Int) - dayOf (scanStart c n)) = (i : Int)
      by ring]
    exact hschool
  · rintro ⟨h1, h2, hschool, hfree⟩
    refine ⟨(d - dayOf (scanStart c n)).toNat, ?_, ?_⟩
    · rw [List.mem_range]
      omega
    · rw [dateCandidate_eq_some]
      have hcast : ((d - dayOf (scanStart c n)).toNat : Int)
          = d - dayOf (scanStart c n) := Int.toNat_of_nonneg (by omega)
      rw [hcast, show dayOf (scanStart c n) + (d - dayOf (scanStart c n)) = d by ring]
      exact ⟨hschool, hfree, rfl⟩

/-- C3: the display form of a day `d` appears in the result of
`getDateOptions` exactly when `d` is one of the 14 scanned candidate days,
`isSchoolDay` is truthy at its scan moment, and either no existing order
occupies `d` or the focused order's own date is `d`; in particular a day
occupied by an existing order is never included unless it is the focused
order's date. -/
theorem getDateOptions_mem_spec (orders : List OrderRec) (foc : Option FocusedOrder)
    (c n : Int) (sched : Schedule) (d : Int) :
    toReadable d ∈ getDateOptions orders foc c n sched ↔
      (dayOf (scanStart c n) ≤ d ∧ d < dayOf (scanStart c n) + 14
       ∧ truthy (isSchoolDay (scanStart c n + 1440 * (d - dayOf (scanStart c n)))
           sched) = true
       ∧ (¬ d ∈ orders.map (fun o => dayOf o.date)
          ∨ ∃ f, foc = some f ∧ toISO f.date = d)) :=
  mem_getDateOptions_iff orders foc c n sched d

/-- C5: `getDateOptions` returns at most 14 entries, and every returned
display date lies in the half-open 14-day window starting at the computed
starting day of the scan. -/
theorem getDateOptions_window_spec (orders : List OrderRec)
    (foc : Option FocusedOrder) (c n : Int) (sched : Schedule) :
    (getDateOptions orders foc c n sched).length ≤ 14
  ∧ ∀ r ∈ getDateOptions orders foc c n sched,
      dayOf (scanStart c n) ≤ r.day ∧ r.day < dayOf (scanStart c n) + 14 := by
  constructor
  · calc (getDateOptions orders foc c n sched).length
        ≤ (List.range 14).length := List.length_filterMap_le _ _
      _ = 14 := List.length_range 14
  · intro r hr
    have hr' : toReadable r.day ∈ getDateOptions orders foc c n sched := hr
    rw [mem_getDateOptions_iff] at hr'
    exact ⟨hr'.1, hr'.2.1⟩

/-- Witness for C5 on a concrete input: a singleton all-school-day schedule,
no orders, cutoff and now both at the epoch midnight; day 0 is returned and
lies in the window. -/
theorem getDateOptions_window_spec_witness :
    dayOf (scanStart 0 0) ≤ (ReadableDate.mk 0).day
  ∧ (ReadableDate.mk 0).day < dayOf (scanStart 0 0) + 14 :=
  (getDateOptions_window_spec [] none 0 0 ⟨0, [true]⟩).2 (ReadableDate.mk 0) (by decide)

/-- C6: the output of `getDateOptions` is strictly chronologically
ascending: the underlying days are pairwise strictly increasing, so there
are no duplicate dates. -/
theorem getDateOptions_ascending (orders : List OrderRec)
    (foc : Option FocusedOrder) (c n : Int) (sched : Schedule) :
    List.Pairwise (fun a b : ReadableDate => a.day < b.day)
      (getDateOptions orders foc c n sched) := by
  unfold getDateOptions
  rw [List.pairwise_filterMap]
  refine (List.pairwise_lt_range 14).imp ?_
  intro a b hab x hx y hy
  rw [Option.mem_def, dateCandidate_eq_some] at hx hy
  have hxday : x.day = dayOf (scanStart c n) + (a : Int) := by
    rw [hx.2.2]
    rfl
  have hyday : y.day = dayOf (scanStart c n) + (b : Int) := by
    rw [hy.2.2]
    rfl
  rw [hxday, hyday]
  omega

lemma insertOrder_perm (o : OrderRec) (l : List OrderRec) :
    (insertOrder o l).Perm (o :: l) := by
  induction l with
  | nil => exact List.Perm.refl _
  | cons x xs ih =>
    unfold insertOrder
    split
    · exact List.Perm.refl _
    · exact ((ih.cons x).trans (List.Perm.swap o x xs))

lemma sortOrders_perm (l : List OrderRec) : (sortOrders l).Perm l := by
  induction l with
  | nil => exact List.Perm.refl _
  | cons o rest ih =>
    exact (insertOrder_perm o (sortOrders rest)).trans (ih.cons o)

lemma insertOrder_pairwise (o : OrderRec) (l : List OrderRec)
    (h : List.Pairwise (fun a b : OrderRec => a.date ≤ b.date) l) :
    List.Pairwise (fun a b : OrderRec => a.date ≤ b.date) (insertOrder o l) := by
  induction l with
  | nil => simp [insertOrder]
  | cons x xs ih =>
    rw [List.pairwise_cons] at h
    unfold insertOrder
    split
    next hle =>
      rw [List.pairwise_cons]
      refine ⟨?_, List.pairwise_cons.mpr h⟩
      intro b hb
      rw [List.mem_cons] at hb
      rcases hb with hb | hb
      · exact hb ▸ hle
      · exact le_trans hle (h.1 b hb)
    next hgt =>
      rw [List.pairwise_cons]
      refine ⟨?_, ih h.2⟩
      intro b hb
      have hb' : b ∈ o :: xs := (insertOrder_perm o xs).mem_iff.mp hb
      rw [List.mem_cons] at hb'
      rcases hb' with hb' | hb'
      · rw [hb']
        omega
      · exact h.1 b hb'

lemma sortOrders_pairwise (l : List OrderRec) :
    List.Pairwise (fun a b : OrderRec => a.date ≤ b.date) (sortOrders l) := by
  induction l with
  | nil => exact List.Pairwise.nil
  | cons o rest ih => exact insertOrder_pairwise o (sortOrders rest) ih

/-- C10 counterexample: with two orders on the same day (day 5) and the
reference moment at the epoch midnight, `getOrdersArr` keeps both, so its
output is not strictly chronologically ascending. -/
theorem getOrdersArr_strict_counterexample :
    getOrdersArr [⟨1, momentOfDay 5⟩, ⟨2, momentOfDay 5⟩] 0 0
      = [⟨1, ⟨5⟩⟩, ⟨2, ⟨5⟩⟩]
  ∧ ¬ List.Pairwise (fun a b : ShownOrder => a.date.day < b.date.day)
      (getOrdersArr [⟨1, momentOfDay 5⟩, ⟨2, momentOfDay 5⟩] 0 0) := by
  refine ⟨by decide, ?_⟩
  intro h
  rw [show getOrdersArr [⟨1, momentOfDay 5⟩, ⟨2, momentOfDay 5⟩] 0 0
      = [⟨1, ⟨5⟩⟩, ⟨2, ⟨5⟩⟩] by decide] at h
  rw [List.pairwise_cons] at h
  exact absurd (h.1 ⟨2, ⟨5⟩⟩ (by decide)) (by decide)

/-- C10 (amended): `getOrdersArr` returns exactly (as a permutation) the
display-formatted orders whose date is at or after the reference moment —
today's midnight when the current moment is before the cutoff time, the
current moment itself otherwise — sorted in non-decreasing chronological
order by date (strict ascent can fail only between orders sharing a date);
an order dated today (midnight) is kept if and only if the current moment is
before the cutoff time or is itself exactly today's midnight. -/
theorem getOrdersArr_spec (orders : List OrderRec) (cutoffTime now : Int) :
    (getOrdersArr orders cutoffTime now).Perm
      ((orders.filter (keepOrder cutoffTime now)).map showOrder)
  ∧ List.Pairwise (fun a b : ShownOrder => a.date.day ≤ b.date.day)
      (getOrdersArr orders cutoffTime now)
  ∧ ∀ o : OrderRec, o.date = momentOfDay (dayOf now) →
      (keepOrder cutoffTime now o = true
        ↔ (now < cutoffTime ∨ now = momentOfDay (dayOf now))) := by
  refine ⟨?_, ?_, ?_⟩
  · exact (sortOrders_perm (orders.filter (keepOrder cutoffTime now))).map showOrder
  · unfold getOrdersArr
    refine List.Pairwise.map showOrder ?_
      (sortOrders_pairwise (orders.filter (keepOrder cutoffTime now)))
    intro a b hab
    exact Int.ediv_le_ediv (by norm_num) hab
  · intro o ho
    rw [keepOrder, decide_eq_true_iff, ho]
    unfold refMoment momentOfDay dayOf
    split
    next hlt => omega
    next hge =>
      constructor
      · intro hle
        right
        omega
      · intro h
        rcases h with h | h
        · exact absurd h hge
        · omega

/-- Witness for C10 (amended): an order at the epoch midnight with `now` at
the epoch midnight and the cutoff ten hours later is kept, because the
current moment is before the cutoff. -/
theorem getOrdersArr_spec_witness :
    keepOrder 600 0 ⟨1, momentOfDay (dayOf 0)⟩ = true
      ↔ ((0 : Int) < 600 ∨ (0 : Int) = momentOfDay (dayOf 0)) :=
  (getOrdersArr_spec [⟨1, momentOfDay (dayOf 0)⟩] 600 0).2.2
    ⟨1, momentOfDay (dayOf 0)⟩ rfl

end SimpleSubs
